import Mathlib

/-!
Verification of `cetlvast/cmake/bin/test_report_util.py`: the JUnit-XML to
SonarQube generic-test-execution translator.  The Python source is shallowly
embedded below: XML element trees become the inductive `Elem`, the mutable
`testExecutions` output tree and the call-local `sq_files` dict become explicit
state threaded through pure functions, and Python exceptions become `Except`
values that abort the run, mirroring the fact that the script catches only
`xml.etree.ElementTree.ParseError` at its `append` boundary.
-/

set_option maxRecDepth 4000

namespace TestReportUtil

/-- Shallow embedding of an `xml.etree.ElementTree.Element`: a tag, an
attribute dictionary (keys are unique in XML, modelled as an association
list), the optional text node, and the list of direct children. -/
inductive Elem where
  | mk (tag : String) (attrib : List (String × String)) (text : Option String)
       (children : List Elem)

def Elem.tag : Elem → String
  | .mk t _ _ _ => t

def Elem.attrib : Elem → List (String × String)
  | .mk _ a _ _ => a

def Elem.text : Elem → Option String
  | .mk _ _ x _ => x

def Elem.children : Elem → List Elem
  | .mk _ _ _ c => c

/-- Model of `Element.get(key)`: look the key up in the attribute dictionary,
returning `none` when absent (Python `None`). -/
def Elem.get (e : Elem) (key : String) : Option String :=
  (e.attrib.find? (fun p => p.1 == key)).map (fun p => p.2)

/-- Model of `Element.find(tag)`: the first direct child with the given tag. -/
def Elem.find (e : Elem) (t : String) : Option Elem :=
  e.children.find? (fun c => c.tag == t)

/-- Model of `Element.findall(tag)`: all direct children with the given tag,
in document order. -/
def Elem.findall (e : Elem) (t : String) : List Elem :=
  e.children.filter (fun c => c.tag == t)

/-- Python exceptions that the translator can raise and does not catch:
`ValueError` from `float()` on an unparsable string, `AttributeError` from
`None.rstrip()`, and `IndexError` from indexing an empty list. -/
inductive PyErr where
  | valueError
  | attributeError
  | indexError
deriving DecidableEq, Repr

/-- Model of the characters stripped by Python `str.rstrip()` (the ASCII
whitespace fragment: space, tab, newline, carriage return, vertical tab,
form feed; the translator's inputs contain no exotic unicode spaces). -/
def isPySpace (c : Char) : Bool :=
  c == ' ' || c == '\t' || c == '\n' || c == '\r' ||
    c == Char.ofNat 11 || c == Char.ofNat 12

/-- Model of Python `str.rstrip()` with no arguments. -/
def pyRstrip (s : String) : String :=
  String.mk ((s.data.reverse.dropWhile isPySpace).reverse)

/-- Split a character list on a separator character, keeping empty pieces,
exactly like Python `str.split(sep)` with an explicit separator: the result
always has at least one piece, and splitting the empty string yields one
empty piece. -/
def splitOnChar (sep : Char) : List Char → List (List Char)
  | [] => [[]]
  | c :: rest =>
    let r := splitOnChar sep rest
    if c == sep then
      [] :: r
    else
      match r with
      | [] => [[c]]
      | h :: t => (c :: h) :: t

/-- Model of Python `s.split("\n")`. -/
def pySplitNl (s : String) : List String :=
  (splitOnChar '\n' s.data).map (fun l => String.mk l)

/-- Value of a list of decimal digit characters. -/
def digitsVal (cs : List Char) : Nat :=
  cs.foldl (fun n c => 10 * n + (c.toNat - 48)) 0

/-- Model of `int(float(s))` as used on the `time` attribute: `float()`
parses the string (raising `ValueError`, i.e. `none`, when unparsable) and
`int()` truncates toward zero.  The model covers the decimal-literal
fragment `[+|-]digits[.digits]` (with at least one digit); exponent forms,
infinities, whitespace padding and literals whose binary rounding crosses an
integer boundary are outside the fragment and are not used in any theorem
below. -/
def pyFloatTrunc (s : String) : Option Int :=
  let cs := s.data
  let signed : Bool × List Char :=
    match cs with
    | '-' :: r => (true, r)
    | '+' :: r => (false, r)
    | r => (false, r)
  let intPart := signed.2.takeWhile Char.isDigit
  let rest := signed.2.dropWhile Char.isDigit
  let mag : Option Nat :=
    match rest with
    | [] => if intPart.isEmpty then none else some (digitsVal intPart)
    | '.' :: frac =>
      if frac.all Char.isDigit && (!intPart.isEmpty || !frac.isEmpty) then
        some (digitsVal intPart)
      else none
    | _ => none
  mag.map (fun n => if signed.1 then -(n : Int) else (n : Int))

/-- Model of Python `s.startswith("/")`. -/
def startsWithSlash (s : String) : Bool :=
  s.data.take 1 == ['/']

/-- Model of Python `s.startswith("//")`. -/
def startsWith2Slash (s : String) : Bool :=
  s.data.take 2 == ['/', '/']

/-- Model of Python `s.startswith("///")`. -/
def startsWith3Slash (s : String) : Bool :=
  s.data.take 3 == ['/', '/', '/']

/-- Model of Python `s.endswith("/")`. -/
def endsWithSlash (s : String) : Bool :=
  s.data.getLast? == some '/'

/-- Model of `posixpath.join(a, b)` for two components, as used by
`abspath`: an absolute second component discards the first. -/
def pyJoin2 (a b : String) : String :=
  if startsWithSlash b then b
  else if a == "" || endsWithSlash a then a ++ b
  else a ++ "/" ++ b

/-- One step of CPython `posixpath.normpath`'s component loop: `comps` is
the accumulated (reversed) component stack. -/
def normStep (isAbs : Bool) (acc : List String) (comp : String) : List String :=
  if comp == "" || comp == "." then acc
  else if comp != ".." || (!isAbs && acc.isEmpty) || acc.headD "" == ".." then
    comp :: acc
  else if !acc.isEmpty then acc.tail
  else acc

/-- Model of CPython `posixpath.normpath` (the POSIX variant: `//` kept as a
double initial slash, `.` and empty components dropped, `..` resolved
against the stack, `..` at an absolute root dropped). -/
def normpath (path : String) : String :=
  if path == "" then "." else
  let isAbs := startsWithSlash path
  let slashes :=
    if startsWith2Slash path && !startsWith3Slash path then "//"
    else if isAbs then "/" else ""
  let comps := (splitOnChar '/' path.data).map (fun l => String.mk l)
  let newComps := (comps.foldl (normStep isAbs) []).reverse
  let joined := slashes ++ String.intercalate "/" newComps
  if joined == "" then "." else joined

/-- Model of `posixpath.abspath`, with the ambient working directory made an
explicit argument `cwd` (assumed absolute, as `os.getcwd()` always is). -/
def abspath (cwd path : String) : String :=
  normpath (pyJoin2 cwd path)

/-- Length of the longest common prefix of two lists, the list analogue of
`os.path.commonprefix` applied to two split path component lists. -/
def commonPrefixLen : List String → List String → Nat
  | a :: as, b :: bs => if a == b then commonPrefixLen as bs + 1 else 0
  | _, _ => 0

/-- Model of `posixpath.relpath(path, start)` with the working directory
explicit.  Returns `none` for the `ValueError` raised on an empty `path`
(the only `ValueError` POSIX `relpath` raises on string arguments). -/
def relpath (cwd path start : String) : Option String :=
  if path == "" then none
  else
    let startList := ((splitOnChar '/' (abspath cwd start).data).map
      (fun l => String.mk l)).filter (fun x => x != "")
    let pathList := ((splitOnChar '/' (abspath cwd path).data).map
      (fun l => String.mk l)).filter (fun x => x != "")
    let i := commonPrefixLen startList pathList
    let relList := List.replicate (startList.length - i) ".." ++ pathList.drop i
    if relList.isEmpty then some "." else some (String.intercalate "/" relList)

/-- One `<testCase>` element of the SonarQube output: the composed name, the
`duration` attribute string, an optional `<skipped>` child (message
attribute, body text) and an optional single `<failure>` child (message
attribute, optional body text). -/
structure SQTestCase where
  name : String
  duration : String
  skipped : Option (String × String)
  failure : Option (String × Option String)
deriving DecidableEq, Repr

/-- One `<file>` element of the SonarQube output: its `path` attribute and
its `<testCase>` children in append order. -/
structure SQFile where
  path : String
  testCases : List SQTestCase
deriving DecidableEq, Repr

/-- State local to one call of
`_junit_to_sonarqube_generic_execution_format`: the `sq_files` dict (an
insertion-ordered association list from the raw test-case file key to the
`<file>` element it aliases; the elements created by this call are appended
to `testExecutions` in creation order, so the list order is also their
document order) together with the running warning count of the `logging`
module. -/
structure CallState where
  newFiles : List (String × SQFile)
  warnings : Nat
deriving DecidableEq, Repr

/-- Dictionary lookup in the insertion-ordered `sq_files` model. -/
def lookupKey : List (String × SQFile) → String → Option SQFile
  | [], _ => none
  | (k, f) :: rest, key => if k == key then some f else lookupKey rest key

/-- Model of `sq_file.append(sq_test_case)`: append a test case to the file
element registered under `key` (the first, and by construction only, entry
with that key). -/
def updateKey : List (String × SQFile) → String → SQTestCase → List (String × SQFile)
  | [], _, _ => []
  | (k, f) :: rest, key, tc =>
    if k == key then (k, { f with testCases := f.testCases ++ [tc] }) :: rest
    else (k, f) :: updateKey rest key tc

/-- Lines 51-59 of the source: the per-test-case file key.  The `file`
attribute wins whenever it is present (the `gtest` quirks mode), otherwise
the `classname` attribute is used (the `ctest` quirks mode), otherwise the
test case is unusable (`none`). -/
def fileKeyOf (tc : Elem) : Option String :=
  match tc.get "file" with
  | some f => some f
  | none => tc.get "classname"

/-- Lines 61-64 of the source: the output test-case name, with the
`type_param` attribute appended after a single space when present. -/
def nameOf (tc : Elem) : String :=
  let n := (tc.get "name").getD ""
  match tc.get "type_param" with
  | some tp => n ++ " " ++ tp
  | none => n

/-- Lines 85-86 of the source: `int(float(testcase.get("time", 0.0)))`.
A missing attribute defaults to the float `0.0`; an unparsable attribute is
a `ValueError` (`none`). -/
def durationOf (tc : Elem) : Option Int :=
  match tc.get "time" with
  | none => some 0
  | some s => pyFloatTrunc s

/-- Lines 91-95 of the source: the optional `<skipped>` child.  The message
attribute defaults to the empty string and is right-stripped; the body text
is right-stripped, but a missing body text is `None.rstrip()` — an
`AttributeError`. -/
def skippedOf (tc : Elem) : Except PyErr (Option (String × String)) :=
  match tc.find "skipped" with
  | none => .ok none
  | some sk =>
    match sk.text with
    | none => .error .attributeError
    | some t => .ok (some (pyRstrip ((sk.get "message").getD ""), pyRstrip t))

/-- Lines 100-103 of the source: the flat `sq_failure_text` sequence — every
failure child's message attribute (default empty string) split on newline,
concatenated in order. -/
def failureLines (failures : List Elem) : List String :=
  failures.flatMap (fun f => pySplitNl ((f.get "message").getD ""))

/-- Lines 96-106 of the source: at most one output failure.  When failure
children exist, its message attribute is `sq_failure_text[0]` (an
`IndexError` if the sequence were empty) and its body text is the remaining
lines joined with newlines when more than one line exists. -/
def failureOf (tc : Elem) : Except PyErr (Option (String × Option String)) :=
  if (tc.findall "failure").length > 0 then
    match failureLines (tc.findall "failure") with
    | [] => .error .indexError
    | l0 :: rest =>
      .ok (some (l0, if rest.isEmpty then none else some (String.intercalate "\n" rest)))
  else .ok none

/-- Lines 68-81 of the source: resolve the `sq_files` entry for a raw file
key.  The lookup uses the raw key; only when the key is new is the path made
relative to `base_dir` (falling back to the raw key when `relpath` raises
`ValueError`) and a fresh `<file>` element appended. -/
def resolveGroup (cwd : String) (base_dir : Option String)
    (files : List (String × SQFile)) (key : String) : List (String × SQFile) :=
  match lookupKey files key with
  | some _ => files
  | none =>
    let file_path :=
      match base_dir with
      | none => key
      | some b =>
        match relpath cwd key b with
        | some r => r
        | none => key
    files ++ [(key, ⟨file_path, []⟩)]

/-- Lines 49-106 of the source: process one direct child of a testsuite.
A child with neither `file` nor `classname` attribute is skipped with one
warning (`continue`).  Otherwise the file group is resolved, and the test
case is transcribed and appended to it.  The source appends the bare
`testCase` element before populating its skipped/failure children; since
any exception aborts the run before the output document is written, building
the complete test case first is observationally equivalent. -/
def processTestcase (cwd : String) (base_dir : Option String)
    (st : CallState) (tc : Elem) : Except PyErr CallState :=
  match fileKeyOf tc with
  | none => .ok ⟨st.newFiles, st.warnings + 1⟩
  | some key =>
    let files1 := resolveGroup cwd base_dir st.newFiles key
    match durationOf tc with
    | none => .error .valueError
    | some dur =>
      match skippedOf tc with
      | .error e => .error e
      | .ok sk =>
        match failureOf tc with
        | .error e => .error e
        | .ok fl =>
          .ok ⟨updateKey files1 key ⟨nameOf tc, toString dur, sk, fl⟩, st.warnings⟩

/-- The inner `for testcase in testsuite` loop over a suite's direct
children. -/
def processChildren (cwd : String) (base_dir : Option String) :
    CallState → List Elem → Except PyErr CallState
  | st, [] => .ok st
  | st, tc :: rest =>
    match processTestcase cwd base_dir st tc with
    | .error e => .error e
    | .ok st' => processChildren cwd base_dir st' rest

/-- The outer `for testsuite in testsuites` loop. -/
def processSuites (cwd : String) (base_dir : Option String) :
    CallState → List Elem → Except PyErr CallState
  | st, [] => .ok st
  | st, s :: rest =>
    match processChildren cwd base_dir st s.children with
    | .error e => .error e
    | .ok st' => processSuites cwd base_dir st' rest

/-- Model of `_junit_to_sonarqube_generic_execution_format` applied to an
already-parsed document root: a bare `testsuite` root is the sole suite,
otherwise the `testsuite` children of the root are the suites.  `sq_files`
starts empty on every call; the `<file>` elements created by the call are
appended to the `testExecutions` children `tes` in creation order.  Returns
the new `testExecutions` children and warning count, or the uncaught Python
exception. -/
def junitToSonarqube (cwd : String) (base_dir : Option String) (root : Elem)
    (tes : List SQFile) (warnings : Nat) : Except PyErr (List SQFile × Nat) :=
  match processSuites cwd base_dir ⟨[], warnings⟩
      (if root.tag == "testsuite" then [root] else root.findall "testsuite") with
  | .error e => .error e
  | .ok st => .ok (tes ++ st.newFiles.map (fun p => p.2), st.warnings)

/-- One input report as seen after `ET.parse`: either malformed XML (the
parse raised `ET.ParseError`) or a parsed document root.  File contents are
ambient filesystem state in the script; they are the values here. -/
inductive InputFile where
  | malformed
  | parsed (root : Elem)

/-- Lines 151-157 of the source, the `append` function: a `ParseError` is
caught, logged as one warning and turned into return code 1; any other
exception propagates.  On success the return code is 0. -/
def append (cwd : String) (base_dir : Option String) (report : InputFile)
    (tes : List SQFile) (warnings : Nat) : Except PyErr (List SQFile × Nat × Nat) :=
  match report with
  | .malformed => .ok (tes, warnings + 1, 1)
  | .parsed root =>
    match junitToSonarqube cwd base_dir root tes warnings with
    | .error e => .error e
    | .ok (tes', w') => .ok (tes', w', 0)

/-- The parsed command line.  `input` is `none` when no `-i` flag was given
(argparse's `append` action leaves the attribute `None`), and otherwise the
parsed contents of the listed files; `pattern` has an argparse default of
`"*.xml"` but the source still guards on it being non-`None`. -/
structure Args where
  pattern : Option String
  input : Option (List InputFile)
  stop_on_failure : Bool
  dry_run : Bool
  base_dir : Option String

/-- Outcome of one of `main`'s two report loops. -/
inductive LoopOutcome where
  | finished (tes : List SQFile) (warnings : Nat)
  | stopped (warnings : Nat)
  | raised (e : PyErr)
deriving DecidableEq, Repr

/-- One of `main`'s loops: `if append(...) != 0 and args.stop_on_failure:
return 1`. -/
def processReports (cwd : String) (base_dir : Option String) (stop : Bool) :
    List InputFile → List SQFile → Nat → LoopOutcome
  | [], tes, w => .finished tes w
  | r :: rest, tes, w =>
    match append cwd base_dir r tes w with
    | .error e => .raised e
    | .ok (tes', w', rc) =>
      if rc != 0 && stop then .stopped w'
      else processReports cwd base_dir stop rest tes' w'

/-- Observable outcome of a run of `main`: either a process exit with a
code, the written output document (`none` when nothing was written — early
exit or dry run) and the number of warnings logged, or an uncaught Python
exception terminating the interpreter before any output is written. -/
inductive MainResult where
  | exited (code : Nat) (output : Option (List SQFile)) (warnings : Nat)
  | uncaught (e : PyErr)
deriving DecidableEq, Repr

/-- Lines 163-204 of the source, the `main` function.  `globReports`
abstracts the parsed contents of the files matched by `args.pattern` in the
working directory (after the `.xml` suffix filter); it is consulted only
when `pattern` is not `None`.  The `args.input is None` check precedes both
loops; the output document (the `testExecutions` children) is written only
when both loops finish and `dry_run` is off. -/
def mainModel (cwd : String) (args : Args) (globReports : List InputFile) : MainResult :=
  match args.input with
  | none => .exited 1 none 0
  | some inputs =>
    match processReports cwd args.base_dir args.stop_on_failure
        (match args.pattern with
         | some _ => globReports
         | none => []) [] 0 with
    | .raised e => .uncaught e
    | .stopped w => .exited 1 none w
    | .finished tes w =>
      match processReports cwd args.base_dir args.stop_on_failure inputs tes w with
      | .raised e => .uncaught e
      | .stopped w2 => .exited 1 none w2
      | .finished tes2 w2 =>
        if args.dry_run then .exited 0 none w2
        else .exited 0 (some tes2) w2

/-! ### Basic lemmas about the string and dictionary helpers -/

theorem splitOnChar_ne_nil (sep : Char) : ∀ cs, splitOnChar sep cs ≠ []
  | [] => by simp [splitOnChar]
  | c :: rest => by
    simp only [splitOnChar]
    split
    · simp
    · cases h : splitOnChar sep rest <;> simp

theorem pySplitNl_ne_nil (s : String) : pySplitNl s ≠ [] := by
  unfold pySplitNl
  intro h
  exact splitOnChar_ne_nil '\n' s.data (List.map_eq_nil_iff.mp h)

theorem failureLines_ne_nil (fs : List Elem) (h : fs ≠ []) : failureLines fs ≠ [] := by
  cases fs with
  | nil => exact absurd rfl h
  | cons f rest =>
    unfold failureLines
    simp only [List.flatMap_cons]
    intro hc
    exact pySplitNl_ne_nil _ (List.append_eq_nil.mp hc).1

theorem failureOf_ne_indexError (tc : Elem) (e : PyErr) :
    failureOf tc = .error e → e = .indexError → False := by
  unfold failureOf
  split
  · rename_i hlen
    cases h : failureLines (tc.findall "failure") with
    | nil =>
      exact fun _ _ => failureLines_ne_nil _ (by
        intro hnil
        rw [hnil] at hlen
        simp at hlen) h
    | cons l0 rest => simp
  · simp

theorem failureOf_ok (tc : Elem) : ∃ fl, failureOf tc = .ok fl := by
  unfold failureOf
  split
  · rename_i hlen
    cases h : failureLines (tc.findall "failure") with
    | nil =>
      exact absurd h (failureLines_ne_nil _ (by
        intro hnil
        rw [hnil] at hlen
        simp at hlen))
    | cons l0 rest => exact ⟨_, rfl⟩
  · exact ⟨none, rfl⟩

theorem lookupKey_eq_none_iff (fs : List (String × SQFile)) (k : String) :
    lookupKey fs k = none ↔ ∀ p ∈ fs, p.1 ≠ k := by
  induction fs with
  | nil => simp [lookupKey]
  | cons p rest ih =>
    obtain ⟨k', f⟩ := p
    simp only [lookupKey]
    split
    · rename_i hk
      simp only [beq_iff_eq] at hk
      simp [hk]
    · rename_i hk
      simp only [beq_iff_eq] at hk
      simp [ih, hk]

theorem updateKey_map_fst (fs : List (String × SQFile)) (k : String) (tc : SQTestCase) :
    (updateKey fs k tc).map Prod.fst = fs.map Prod.fst := by
  induction fs with
  | nil => rfl
  | cons p rest ih =>
    obtain ⟨k', f⟩ := p
    simp only [updateKey]
    split <;> simp [ih]

theorem updateKey_append_fresh (fs : List (String × SQFile)) (k : String) (g : SQFile)
    (tc : SQTestCase) (h : lookupKey fs k = none) :
    updateKey (fs ++ [(k, g)]) k tc =
      fs ++ [(k, { g with testCases := g.testCases ++ [tc] })] := by
  induction fs with
  | nil => simp [updateKey]
  | cons p rest ih =>
    obtain ⟨k', f⟩ := p
    simp only [lookupKey] at h
    simp only [List.cons_append, updateKey]
    split
    · rename_i hk
      rw [hk] at h
      simp at h
    · rename_i hk
      have h' : lookupKey rest k = none := by
        revert h
        split <;> simp_all
      simp only [List.append_eq] at *
      rw [ih h']

/-- Lines 71-78 of the source, as one function: the path stored on a newly
created `<file>` element — relative to `base_dir` when that is given and
`os.path.relpath` does not raise, the raw key otherwise. -/
def normalizePath (cwd : String) (base_dir : Option String) (key : String) : String :=
  match base_dir with
  | none => key
  | some b =>
    match relpath cwd key b with
    | some r => r
    | none => key

theorem resolveGroup_found (cwd : String) (b : Option String) (fs : List (String × SQFile))
    (k : String) (g : SQFile) (h : lookupKey fs k = some g) :
    resolveGroup cwd b fs k = fs := by
  unfold resolveGroup
  rw [h]

theorem resolveGroup_fresh (cwd : String) (b : Option String) (fs : List (String × SQFile))
    (k : String) (h : lookupKey fs k = none) :
    resolveGroup cwd b fs k = fs ++ [(k, ⟨normalizePath cwd b k, []⟩)] := by
  unfold resolveGroup normalizePath
  rw [h]

/-- Evaluation of `processTestcase` when every stage succeeds. -/
theorem processTestcase_eq (cwd : String) (b : Option String) (st : CallState) (tc : Elem)
    (k : String) (d : Int) (sk : Option (String × String)) (fl : Option (String × Option String))
    (hk : fileKeyOf tc = some k) (hd : durationOf tc = some d)
    (hs : skippedOf tc = .ok sk) (hf : failureOf tc = .ok fl) :
    processTestcase cwd b st tc =
      .ok ⟨updateKey (resolveGroup cwd b st.newFiles k) k ⟨nameOf tc, toString d, sk, fl⟩,
           st.warnings⟩ := by
  unfold processTestcase
  rw [hk, hd, hs, hf]

/-- Evaluation of `processTestcase` on a test case whose file key is not yet
in the `sq_files` dict: one fresh `<file>` element is appended, holding the
transcribed test case, and its path is the normalized key. -/
theorem processTestcase_fresh (cwd : String) (b : Option String) (st : CallState) (tc : Elem)
    (k : String) (d : Int) (sk : Option (String × String)) (fl : Option (String × Option String))
    (hk : fileKeyOf tc = some k) (hd : durationOf tc = some d)
    (hs : skippedOf tc = .ok sk) (hf : failureOf tc = .ok fl)
    (hfresh : lookupKey st.newFiles k = none) :
    processTestcase cwd b st tc =
      .ok ⟨st.newFiles ++ [(k, ⟨normalizePath cwd b k, [⟨nameOf tc, toString d, sk, fl⟩]⟩)],
           st.warnings⟩ := by
  rw [processTestcase_eq cwd b st tc k d sk fl hk hd hs hf,
      resolveGroup_fresh cwd b st.newFiles k hfresh,
      updateKey_append_fresh st.newFiles k _ _ hfresh]
  rfl

theorem skippedOf_error_eq (tc : Elem) (e : PyErr) :
    skippedOf tc = .error e → e = .attributeError := by
  unfold skippedOf
  split
  · simp
  · split <;> simp
    exact fun h => h.symm

/-- A test case whose file key is fresh and whose processing succeeds adds
exactly its key to the group index. -/
theorem processTestcase_ok_fresh_keys (cwd : String) (b : Option String) (st : CallState)
    (tc : Elem) (k : String) (st1 : CallState)
    (hk : fileKeyOf tc = some k) (hfresh : lookupKey st.newFiles k = none)
    (h : processTestcase cwd b st tc = .ok st1) :
    st1.newFiles.map Prod.fst = st.newFiles.map Prod.fst ++ [k] := by
  cases hd : durationOf tc with
  | none =>
    unfold processTestcase at h
    rw [hk, hd] at h
    simp at h
  | some d =>
    cases hs : skippedOf tc with
    | error e =>
      unfold processTestcase at h
      rw [hk, hd, hs] at h
      simp at h
    | ok sk =>
      obtain ⟨fl, hf⟩ := failureOf_ok tc
      rw [processTestcase_fresh cwd b st tc k d sk fl hk hd hs hf hfresh] at h
      cases h
      simp

/-! ### Concrete input fixtures used by counterexamples and witnesses -/

/-- A testsuite element with the given test cases. -/
def tsuite (tcs : List Elem) : Elem := .mk "testsuite" [] none tcs

/-- A failure child element with the given message attribute. -/
def failElem (msg : String) : Elem := .mk "failure" [("message", msg)] none []

def tcDup1 : Elem := .mk "testcase" [("file", "a/b.cpp"), ("name", "t1")] none []

def tcDup2 : Elem := .mk "testcase" [("file", "a/b.cpp"), ("name", "t2")] none []

def tcAbs1 : Elem := .mk "testcase" [("file", "/base/a/b.cpp"), ("name", "tA")] none []

def tcAbs2 : Elem := .mk "testcase" [("file", "/base//a/b.cpp"), ("name", "tB")] none []

def tcEmptyFileAttr : Elem :=
  .mk "testcase" [("file", ""), ("classname", "cls"), ("name", "t")] none []

def tcBothAttrs : Elem := .mk "testcase" [("file", "f.cpp"), ("classname", "cls")] none []

def tcClassOnly : Elem := .mk "testcase" [("classname", "cls"), ("name", "t")] none []

def tcNeitherAttr : Elem := .mk "testcase" [("name", "t")] none []

def tcFrac : Elem := .mk "testcase" [("file", "x.cpp"), ("name", "t"), ("time", "1.5")] none []

def tcNoTime : Elem := .mk "testcase" [("file", "x.cpp"), ("name", "t")] none []

def tcBadTime : Elem := .mk "testcase" [("file", "x.cpp"), ("name", "t"), ("time", "abc")] none []

def tcSkNoText : Elem :=
  .mk "testcase" [("file", "x.cpp"), ("name", "t")] none
    [.mk "skipped" [("message", "m ")] none []]

def tcSkText : Elem :=
  .mk "testcase" [("file", "x.cpp"), ("name", "t")] none
    [.mk "skipped" [("message", "m ")] (some "body \n") []]

def tcFail2 : Elem :=
  .mk "testcase" [("file", "x.cpp"), ("name", "t")] none
    [failElem "line1\nline2", failElem "line3"]

/-- Command line with the given parsed inputs, stop flag and base dir; the
glob pattern keeps its argparse default. -/
def runArgs (inputs : List InputFile) (stop : Bool) (b : Option String) : Args :=
  ⟨some "*.xml", some inputs, stop, false, b⟩

/-! ### Claims -/

/-- Claim C10: for every test case with at least one failure child, the
flattened line sequence built by the failure aggregator is non-empty, so
reading its first element to set the output message attribute always
succeeds: processing can never raise an `IndexError`. -/
theorem claim_C10 (cwd : String) (b : Option String) (st : CallState) (tc : Elem) :
    (tc.findall "failure" ≠ [] → failureLines (tc.findall "failure") ≠ []) ∧
    processTestcase cwd b st tc ≠ .error .indexError := by
  refine ⟨fun h => failureLines_ne_nil _ h, ?_⟩
  unfold processTestcase
  split
  · simp
  · split
    · simp
    · split
      · rename_i e hs
        have he := skippedOf_error_eq _ _ hs
        subst he
        simp
      · split
        · rename_i e hf
          intro hcontra
          exact failureOf_ne_indexError _ e hf (by cases hcontra; rfl)
        · simp

/-- Claim C10 witness: a concrete test case with two failure children has a
non-empty flattened line sequence and its processing is not an
`IndexError`. -/
theorem claim_C10_witness :
    (Elem.findall tcFail2 "failure" ≠ [] → failureLines (Elem.findall tcFail2 "failure") ≠ []) ∧
    processTestcase "/" none ⟨[], 0⟩ tcFail2 ≠ .error .indexError :=
  claim_C10 "/" none ⟨[], 0⟩ tcFail2

/-- Claim C3 counterexample: a test case with `file=""` (present but empty)
and `classname="cls"` is grouped under the empty-string key taken from the
`file` attribute, not under `"cls"` as the claim's non-emptiness rule would
require. -/
theorem claim_C3_counterexample :
    mainModel "/" (runArgs [.parsed (tsuite [tcEmptyFileAttr])] false none) [] =
      .exited 0 (some [⟨"", [⟨"t", "0", none, none⟩]⟩]) 0 ∧
    mainModel "/" (runArgs [.parsed (tsuite [tcEmptyFileAttr])] false none) [] ≠
      .exited 0 (some [⟨"cls", [⟨"t", "0", none, none⟩]⟩]) 0 :=
  ⟨rfl, by decide⟩

/-- Claim C3 (amended): the file key is chosen by attribute presence alone:
if the `file` attribute is present (even empty) its value is the key and the
`classname` value is never consulted; otherwise a present `classname` (even
empty) is the key; with neither attribute the test case is dropped from the
output with exactly one warning and processing continues. -/
theorem claim_C3_amended (cwd : String) (b : Option String) (st : CallState) (tc : Elem) :
    (∀ f c st1, tc.get "file" = some f → tc.get "classname" = some c →
      lookupKey st.newFiles f = none → processTestcase cwd b st tc = .ok st1 →
      st1.newFiles.map Prod.fst = st.newFiles.map Prod.fst ++ [f]) ∧
    (∀ c st1, tc.get "file" = none → tc.get "classname" = some c →
      lookupKey st.newFiles c = none → processTestcase cwd b st tc = .ok st1 →
      st1.newFiles.map Prod.fst = st.newFiles.map Prod.fst ++ [c]) ∧
    (tc.get "file" = none → tc.get "classname" = none →
      processTestcase cwd b st tc = .ok ⟨st.newFiles, st.warnings + 1⟩) := by
  refine ⟨?_, ?_, ?_⟩
  · intro f c st1 hfile _ hfresh h
    exact processTestcase_ok_fresh_keys cwd b st tc f st1
      (by unfold fileKeyOf; rw [hfile]) hfresh h
  · intro c st1 hfile hclass hfresh h
    exact processTestcase_ok_fresh_keys cwd b st tc c st1
      (by unfold fileKeyOf; rw [hfile]; exact hclass) hfresh h
  · intro hfile hclass
    unfold processTestcase
    rw [show fileKeyOf tc = none by unfold fileKeyOf; rw [hfile]; exact hclass]

/-- Claim C3 witness: the three branches of the amended rule at concrete
test cases (both attributes present, classname only, neither). -/
theorem claim_C3_witness :
    (Elem.get tcBothAttrs "file" = some "f.cpp" ∧
      Elem.get tcBothAttrs "classname" = some "cls" ∧
      ([("f.cpp", (⟨"f.cpp", [⟨"", "0", none, none⟩]⟩ : SQFile))].map Prod.fst =
        ([] : List (String × SQFile)).map Prod.fst ++ ["f.cpp"])) ∧
    (Elem.get tcClassOnly "file" = none ∧
      Elem.get tcClassOnly "classname" = some "cls" ∧
      ([("cls", (⟨"cls", [⟨"t", "0", none, none⟩]⟩ : SQFile))].map Prod.fst =
        ([] : List (String × SQFile)).map Prod.fst ++ ["cls"])) ∧
    (Elem.get tcNeitherAttr "file" = none ∧
      Elem.get tcNeitherAttr "classname" = none ∧
      processTestcase "/" none ⟨[], 0⟩ tcNeitherAttr = .ok ⟨[], 0 + 1⟩) :=
  ⟨⟨rfl, rfl,
    (claim_C3_amended "/" none ⟨[], 0⟩ tcBothAttrs).1 "f.cpp" "cls"
      ⟨[("f.cpp", ⟨"f.cpp", [⟨"", "0", none, none⟩]⟩)], 0⟩ rfl rfl rfl rfl⟩,
   ⟨rfl, rfl,
    (claim_C3_amended "/" none ⟨[], 0⟩ tcClassOnly).2.1 "cls"
      ⟨[("cls", ⟨"cls", [⟨"t", "0", none, none⟩]⟩)], 0⟩ rfl rfl rfl rfl⟩,
   ⟨rfl, rfl,
    (claim_C3_amended "/" none ⟨[], 0⟩ tcNeitherAttr).2.2 rfl rfl⟩⟩

/-- Claim C4: for a test case with one or more failure children, exactly one
output failure is produced whose message attribute is the first element of
the flattened line sequence (every failure message, default empty, split on
newline, concatenated in order) and whose body text is the remaining lines
rejoined with newlines, omitted when at most one line exists. -/
theorem claim_C4 (cwd : String) (b : Option String) (st : CallState) (tc : Elem)
    (k : String) (d : Int) (sk : Option (String × String)) (l0 : String) (rest : List String)
    (hk : fileKeyOf tc = some k) (hfresh : lookupKey st.newFiles k = none)
    (hd : durationOf tc = some d) (hs : skippedOf tc = .ok sk)
    (hL : failureLines (tc.findall "failure") = l0 :: rest) :
    processTestcase cwd b st tc =
      .ok ⟨st.newFiles ++ [(k, ⟨normalizePath cwd b k,
        [⟨nameOf tc, toString d, sk,
          some (l0, if rest.isEmpty then none else some (String.intercalate "\n" rest))⟩]⟩)],
        st.warnings⟩ := by
  have hne : tc.findall "failure" ≠ [] := by
    intro h0
    rw [h0] at hL
    simp [failureLines] at hL
  have hlen : (tc.findall "failure").length > 0 := List.length_pos.mpr hne
  have hf : failureOf tc =
      .ok (some (l0, if rest.isEmpty then none else some (String.intercalate "\n" rest))) := by
    unfold failureOf
    rw [if_pos hlen, hL]
  exact processTestcase_fresh cwd b st tc k d sk _ hk hd hs hf hfresh

/-- Claim C4 witness: the spec's own example — failures with messages
`"line1\nline2"` then `"line3"` yield one failure with message `"line1"`
and body text `"line2\nline3"`. -/
theorem claim_C4_witness :
    fileKeyOf tcFail2 = some "x.cpp" ∧
    failureLines (Elem.findall tcFail2 "failure") = ["line1", "line2", "line3"] ∧
    processTestcase "/" none ⟨[], 0⟩ tcFail2 =
      .ok ⟨[("x.cpp", ⟨normalizePath "/" none "x.cpp",
        [⟨nameOf tcFail2, toString (0 : Int), none,
          some ("line1", if (["line2", "line3"] : List String).isEmpty then none
            else some (String.intercalate "\n" ["line2", "line3"]))⟩]⟩)], 0⟩ :=
  ⟨rfl, rfl,
   claim_C4 "/" none ⟨[], 0⟩ tcFail2 "x.cpp" 0 none "line1" ["line2", "line3"]
     rfl rfl rfl rfl rfl⟩

/-- Claim C5 counterexample: a test case with `time="1.5"` is emitted with
`duration="1"` — `str(int(test_duration))` truncates the sub-second
fraction — not with the verbatim value `"1.5"` the claim requires. -/
theorem claim_C5_counterexample :
    mainModel "/" (runArgs [.parsed (tsuite [tcFrac])] false none) [] =
      .exited 0 (some [⟨"x.cpp", [⟨"t", "1", none, none⟩]⟩]) 0 ∧
    mainModel "/" (runArgs [.parsed (tsuite [tcFrac])] false none) [] ≠
      .exited 0 (some [⟨"x.cpp", [⟨"t", "1.5", none, none⟩]⟩]) 0 :=
  ⟨rfl, by decide⟩

/-- Claim C5 (amended): the output duration is `str(int(float(time)))` — the
`time` attribute parsed as a float and truncated toward zero to a whole
integer, rendered in decimal; sub-second fractional precision is dropped,
not preserved. -/
theorem claim_C5_amended (cwd : String) (b : Option String) (st : CallState) (tc : Elem)
    (k s : String) (n : Int) (sk : Option (String × String)) (fl : Option (String × Option String))
    (hk : fileKeyOf tc = some k) (hfresh : lookupKey st.newFiles k = none)
    (ht : tc.get "time" = some s) (hn : pyFloatTrunc s = some n)
    (hs : skippedOf tc = .ok sk) (hf : failureOf tc = .ok fl) :
    processTestcase cwd b st tc =
      .ok ⟨st.newFiles ++ [(k, ⟨normalizePath cwd b k,
        [⟨nameOf tc, toString n, sk, fl⟩]⟩)], st.warnings⟩ := by
  have hd : durationOf tc = some n := by
    unfold durationOf
    rw [ht]
    exact hn
  exact processTestcase_fresh cwd b st tc k n sk fl hk hd hs hf hfresh

/-- Claim C5 witness: at `time="1.5"` the truncated value is `1` and the
emitted duration string is `"1"`. -/
theorem claim_C5_witness :
    Elem.get tcFrac "time" = some "1.5" ∧
    pyFloatTrunc "1.5" = some 1 ∧
    processTestcase "/" none ⟨[], 0⟩ tcFrac =
      .ok ⟨[("x.cpp", ⟨normalizePath "/" none "x.cpp",
        [⟨nameOf tcFrac, toString (1 : Int), none, none⟩]⟩)], 0⟩ :=
  ⟨rfl, rfl,
   claim_C5_amended "/" none ⟨[], 0⟩ tcFrac "x.cpp" "1.5" 1 none none
     rfl rfl rfl rfl rfl rfl⟩

/-- Claim C6 counterexample: a run whose only input holds a test case with
the unparsable `time="abc"` terminates with an uncaught `ValueError` (only
`ET.ParseError` is caught at the `append` boundary), instead of defaulting
the duration to zero and finishing with exit code 0 as the claim requires. -/
theorem claim_C6_counterexample :
    mainModel "/" (runArgs [.parsed (tsuite [tcBadTime])] false none) [] =
      .uncaught .valueError ∧
    mainModel "/" (runArgs [.parsed (tsuite [tcBadTime])] false none) [] ≠
      .exited 0 (some [⟨"x.cpp", [⟨"t", "0", none, none⟩]⟩]) 0 :=
  ⟨rfl, by decide⟩

/-- Claim C6 (amended): a missing `time` attribute defaults the duration to
`"0"` and processing continues; an unparsable `time` attribute raises a
`ValueError` that propagates past the transcriber (it is not caught
anywhere), aborting the whole run. -/
theorem claim_C6_amended (cwd : String) (b : Option String) (st : CallState) (tc : Elem)
    (k : String) :
    (∀ sk fl, tc.get "time" = none → fileKeyOf tc = some k →
      lookupKey st.newFiles k = none → skippedOf tc = .ok sk → failureOf tc = .ok fl →
      processTestcase cwd b st tc =
        .ok ⟨st.newFiles ++ [(k, ⟨normalizePath cwd b k,
          [⟨nameOf tc, "0", sk, fl⟩]⟩)], st.warnings⟩) ∧
    (∀ s, tc.get "time" = some s → pyFloatTrunc s = none → fileKeyOf tc = some k →
      processTestcase cwd b st tc = .error .valueError) := by
  constructor
  · intro sk fl ht hk hfresh hs hf
    have hd : durationOf tc = some 0 := by
      unfold durationOf
      rw [ht]
    exact processTestcase_fresh cwd b st tc k 0 sk fl hk hd hs hf hfresh
  · intro s ht hbad hk
    have hd : durationOf tc = none := by
      unfold durationOf
      rw [ht]
      exact hbad
    unfold processTestcase
    rw [hk, hd]

/-- Claim C6 witness: a test case with no `time` attribute is transcribed
with duration `"0"`; one with `time="abc"` raises `ValueError`. -/
theorem claim_C6_witness :
    (Elem.get tcNoTime "time" = none ∧
      processTestcase "/" none ⟨[], 0⟩ tcNoTime =
        .ok ⟨[("x.cpp", ⟨normalizePath "/" none "x.cpp",
          [⟨nameOf tcNoTime, "0", none, none⟩]⟩)], 0⟩) ∧
    (Elem.get tcBadTime "time" = some "abc" ∧
      pyFloatTrunc "abc" = none ∧
      processTestcase "/" none ⟨[], 0⟩ tcBadTime = .error .valueError) :=
  ⟨⟨rfl, (claim_C6_amended "/" none ⟨[], 0⟩ tcNoTime "x.cpp").1 none none
      rfl rfl rfl rfl rfl⟩,
   ⟨rfl, rfl, (claim_C6_amended "/" none ⟨[], 0⟩ tcBadTime "x.cpp").2 "abc"
      rfl rfl rfl⟩⟩

/-- Claim C7 counterexample: a run whose only input holds a test case with a
`<skipped>` child that has no body text terminates with an uncaught
`AttributeError` (`None.rstrip()`), instead of treating the missing body
text as empty as the claim requires. -/
theorem claim_C7_counterexample :
    mainModel "/" (runArgs [.parsed (tsuite [tcSkNoText])] false none) [] =
      .uncaught .attributeError ∧
    mainModel "/" (runArgs [.parsed (tsuite [tcSkNoText])] false none) [] ≠
      .exited 0 (some [⟨"x.cpp", [⟨"t", "0", some ("m", ""), none⟩]⟩]) 0 :=
  ⟨rfl, by decide⟩

/-- Claim C7 (amended): when the `skipped` child has body text, the output
copies its message attribute and body text with trailing whitespace trimmed;
when the body text is missing, `None.rstrip()` raises an `AttributeError`
that aborts the run — the missing text is not treated as empty. -/
theorem claim_C7_amended (cwd : String) (b : Option String) (st : CallState) (tc : Elem)
    (k : String) (sk : Elem) :
    (∀ d fl m t, fileKeyOf tc = some k → lookupKey st.newFiles k = none →
      durationOf tc = some d → tc.find "skipped" = some sk → sk.get "message" = some m →
      sk.text = some t → failureOf tc = .ok fl →
      processTestcase cwd b st tc =
        .ok ⟨st.newFiles ++ [(k, ⟨normalizePath cwd b k,
          [⟨nameOf tc, toString d, some (pyRstrip m, pyRstrip t), fl⟩]⟩)], st.warnings⟩) ∧
    (∀ d, fileKeyOf tc = some k → durationOf tc = some d →
      tc.find "skipped" = some sk → sk.text = none →
      processTestcase cwd b st tc = .error .attributeError) := by
  constructor
  · intro d fl m t hk hfresh hd hsk hm ht hf
    have hs : skippedOf tc = .ok (some (pyRstrip m, pyRstrip t)) := by
      simp only [skippedOf, hsk, ht, hm, Option.getD_some]
    exact processTestcase_fresh cwd b st tc k d _ fl hk hd hs hf hfresh
  · intro d hk hd hsk ht
    have hs : skippedOf tc = .error .attributeError := by
      simp only [skippedOf, hsk, ht]
    unfold processTestcase
    rw [hk, hd, hs]

/-- Claim C7 witness: a skipped child with message `"m "` and body text
`"body \n"` is transcribed as `("m", "body")`; one with no body text raises
`AttributeError`. -/
theorem claim_C7_witness :
    (Elem.find tcSkText "skipped" = some (Elem.mk "skipped" [("message", "m ")] (some "body \n") []) ∧
      pyRstrip "m " = "m" ∧ pyRstrip "body \n" = "body" ∧
      processTestcase "/" none ⟨[], 0⟩ tcSkText =
        .ok ⟨[("x.cpp", ⟨normalizePath "/" none "x.cpp",
          [⟨nameOf tcSkText, toString (0 : Int),
            some (pyRstrip "m ", pyRstrip "body \n"), none⟩]⟩)], 0⟩) ∧
    ((Elem.mk "skipped" [("message", "m ")] none ([] : List Elem)).text = none ∧
      processTestcase "/" none ⟨[], 0⟩ tcSkNoText = .error .attributeError) :=
  ⟨⟨rfl, rfl, rfl,
    (claim_C7_amended "/" none ⟨[], 0⟩ tcSkText "x.cpp"
        (Elem.mk "skipped" [("message", "m ")] (some "body \n") [])).1 0 none "m " "body \n"
      rfl rfl rfl rfl rfl rfl rfl⟩,
   ⟨rfl,
    (claim_C7_amended "/" none ⟨[], 0⟩ tcSkNoText "x.cpp"
        (Elem.mk "skipped" [("message", "m ")] none [])).2 0 rfl rfl rfl rfl⟩⟩

/-- Claim C2 counterexample: with `base_dir=/base`, the raw keys
`/base/a/b.cpp` and `/base//a/b.cpp` both normalize to `a/b.cpp`, yet the
run emits two separate `<file>` groups (both with path `a/b.cpp`) because
the grouping dict is keyed by the raw value, not the normalized one. -/
theorem claim_C2_counterexample :
    normalizePath "/" (some "/base") "/base/a/b.cpp" = "a/b.cpp" ∧
    normalizePath "/" (some "/base") "/base//a/b.cpp" = "a/b.cpp" ∧
    mainModel "/" (runArgs [.parsed (tsuite [tcAbs1, tcAbs2])] false (some "/base")) [] =
      .exited 0 (some [⟨"a/b.cpp", [⟨"tA", "0", none, none⟩]⟩,
                        ⟨"a/b.cpp", [⟨"tB", "0", none, none⟩]⟩]) 0 ∧
    mainModel "/" (runArgs [.parsed (tsuite [tcAbs1, tcAbs2])] false (some "/base")) [] ≠
      .exited 0 (some [⟨"a/b.cpp", [⟨"tA", "0", none, none⟩, ⟨"tB", "0", none, none⟩]⟩]) 0 :=
  ⟨rfl, rfl, rfl, by decide⟩

/-- Claim C2 (amended): grouping is keyed by the raw file key — path
normalization against `base_dir` is applied once, when a group is created,
to set the group's `path` attribute only.  Two test cases with distinct raw
keys therefore produce two distinct groups, each carrying its own normalized
path, even when those normalized paths coincide. -/
theorem claim_C2_amended (cwd : String) (b : Option String) (tcX tcY : Elem)
    (k1 k2 : String) (d1 d2 : Int) (sk1 sk2 : Option (String × String))
    (fl1 fl2 : Option (String × Option String))
    (h1 : fileKeyOf tcX = some k1) (h2 : fileKeyOf tcY = some k2) (hne : k1 ≠ k2)
    (hd1 : durationOf tcX = some d1) (hs1 : skippedOf tcX = .ok sk1)
    (hf1 : failureOf tcX = .ok fl1)
    (hd2 : durationOf tcY = some d2) (hs2 : skippedOf tcY = .ok sk2)
    (hf2 : failureOf tcY = .ok fl2) :
    processChildren cwd b ⟨[], 0⟩ [tcX, tcY] =
      .ok ⟨[(k1, ⟨normalizePath cwd b k1, [⟨nameOf tcX, toString d1, sk1, fl1⟩]⟩),
            (k2, ⟨normalizePath cwd b k2, [⟨nameOf tcY, toString d2, sk2, fl2⟩]⟩)], 0⟩ := by
  have step1 := processTestcase_fresh cwd b ⟨[], 0⟩ tcX k1 d1 sk1 fl1 h1 hd1 hs1 hf1 rfl
  have hfresh2 : lookupKey [(k1, (⟨normalizePath cwd b k1,
      [⟨nameOf tcX, toString d1, sk1, fl1⟩]⟩ : SQFile))] k2 = none := by
    unfold lookupKey
    rw [if_neg (by simp [hne])]
    rfl
  have step2 := processTestcase_fresh cwd b
    ⟨[(k1, ⟨normalizePath cwd b k1, [⟨nameOf tcX, toString d1, sk1, fl1⟩]⟩)], 0⟩
    tcY k2 d2 sk2 fl2 h2 hd2 hs2 hf2 hfresh2
  unfold processChildren
  rw [show ((⟨[], 0⟩ : CallState).newFiles ++
      [(k1, (⟨normalizePath cwd b k1, [⟨nameOf tcX, toString d1, sk1, fl1⟩]⟩ : SQFile))]) =
      [(k1, (⟨normalizePath cwd b k1, [⟨nameOf tcX, toString d1, sk1, fl1⟩]⟩ : SQFile))]
    from rfl] at step1
  rw [step1]
  unfold processChildren
  rw [step2]
  rfl

/-- Claim C2 witness: the counterexample scenario, via the amended theorem —
the two raw keys normalize identically yet produce two groups. -/
theorem claim_C2_witness :
    fileKeyOf tcAbs1 = some "/base/a/b.cpp" ∧
    fileKeyOf tcAbs2 = some "/base//a/b.cpp" ∧
    normalizePath "/" (some "/base") "/base/a/b.cpp" =
      normalizePath "/" (some "/base") "/base//a/b.cpp" ∧
    processChildren "/" (some "/base") ⟨[], 0⟩ [tcAbs1, tcAbs2] =
      .ok ⟨[("/base/a/b.cpp", ⟨normalizePath "/" (some "/base") "/base/a/b.cpp",
              [⟨nameOf tcAbs1, toString (0 : Int), none, none⟩]⟩),
            ("/base//a/b.cpp", ⟨normalizePath "/" (some "/base") "/base//a/b.cpp",
              [⟨nameOf tcAbs2, toString (0 : Int), none, none⟩]⟩)], 0⟩ :=
  ⟨rfl, rfl, rfl,
   claim_C2_amended "/" (some "/base") tcAbs1 tcAbs2 "/base/a/b.cpp" "/base//a/b.cpp"
     0 0 none none none none rfl rfl (by decide) rfl rfl rfl rfl rfl rfl⟩

/-! ### The per-call grouping invariant (claim C1) -/

/-- Invariant of the call-local `sq_files` dict when `base_dir` is unset:
keys are pairwise distinct and every `<file>` element's path equals its
dictionary key. -/
def GoodFiles (fs : List (String × SQFile)) : Prop :=
  (fs.map Prod.fst).Nodup ∧ ∀ p ∈ fs, p.2.path = p.1

/-- Exhaustive description of a successful `processTestcase` step. -/
theorem processTestcase_ok_shape (cwd : String) (b : Option String) (st st1 : CallState)
    (tc : Elem) (h : processTestcase cwd b st tc = .ok st1) :
    (fileKeyOf tc = none ∧ st1 = ⟨st.newFiles, st.warnings + 1⟩) ∨
    (∃ k d sk fl, fileKeyOf tc = some k ∧ durationOf tc = some d ∧
      skippedOf tc = .ok sk ∧ failureOf tc = .ok fl ∧
      st1 = ⟨updateKey (resolveGroup cwd b st.newFiles k) k
        ⟨nameOf tc, toString d, sk, fl⟩, st.warnings⟩) := by
  cases hk : fileKeyOf tc with
  | none =>
    left
    refine ⟨rfl, ?_⟩
    unfold processTestcase at h
    rw [hk] at h
    cases h
    rfl
  | some k =>
    right
    cases hd : durationOf tc with
    | none =>
      unfold processTestcase at h
      rw [hk, hd] at h
      simp at h
    | some d =>
      cases hs : skippedOf tc with
      | error e =>
        unfold processTestcase at h
        rw [hk, hd, hs] at h
        simp at h
      | ok sk =>
        obtain ⟨fl, hf⟩ := failureOf_ok tc
        rw [processTestcase_eq cwd b st tc k d sk fl hk hd hs hf] at h
        cases h
        exact ⟨k, d, sk, fl, rfl, rfl, rfl, hf, rfl⟩

theorem updateKey_mem (fs : List (String × SQFile)) (k : String) (tc : SQTestCase)
    (p : String × SQFile) (h : p ∈ updateKey fs k tc) :
    ∃ q ∈ fs, p.1 = q.1 ∧ p.2.path = q.2.path := by
  induction fs with
  | nil => simp [updateKey] at h
  | cons q0 rest ih =>
    obtain ⟨k', f⟩ := q0
    simp only [updateKey] at h
    split at h
    · rcases List.mem_cons.mp h with h1 | h1
      · exact ⟨(k', f), List.mem_cons_self _ _, by rw [h1], by rw [h1]⟩
      · exact ⟨p, List.mem_cons_of_mem _ h1, rfl, rfl⟩
    · rcases List.mem_cons.mp h with h1 | h1
      · exact ⟨(k', f), List.mem_cons_self _ _, by rw [h1], by rw [h1]⟩
      · obtain ⟨q, hq, h2, h3⟩ := ih h1
        exact ⟨q, List.mem_cons_of_mem _ hq, h2, h3⟩

theorem GoodFiles_updateKey (fs : List (String × SQFile)) (k : String) (tc : SQTestCase)
    (hg : GoodFiles fs) : GoodFiles (updateKey fs k tc) := by
  constructor
  · rw [updateKey_map_fst]
    exact hg.1
  · intro p hp
    obtain ⟨q, hq, h1, h2⟩ := updateKey_mem fs k tc p hp
    rw [h1, h2]
    exact hg.2 q hq

theorem GoodFiles_processTestcase (cwd : String) (st st1 : CallState) (tc : Elem)
    (h : processTestcase cwd none st tc = .ok st1) (hg : GoodFiles st.newFiles) :
    GoodFiles st1.newFiles := by
  rcases processTestcase_ok_shape cwd none st st1 tc h with ⟨_, hst⟩ | ⟨k, d, sk, fl, _, _, _, _, hst⟩
  · rw [hst]
    exact hg
  · rw [hst]
    cases hl : lookupKey st.newFiles k with
    | some g =>
      rw [resolveGroup_found cwd none st.newFiles k g hl]
      exact GoodFiles_updateKey _ _ _ hg
    | none =>
      rw [resolveGroup_fresh cwd none st.newFiles k hl]
      refine GoodFiles_updateKey _ _ _ ⟨?_, ?_⟩
      · have hkm : k ∉ st.newFiles.map Prod.fst := by
          intro hmem
          obtain ⟨p, hp, hpk⟩ := List.mem_map.mp hmem
          exact ((lookupKey_eq_none_iff st.newFiles k).mp hl) p hp hpk
        simp only [List.map_append, List.map_cons, List.map_nil]
        exact List.Nodup.append hg.1 (List.nodup_singleton k)
          (fun a ha hak => hkm (by rw [List.mem_singleton] at hak; exact hak ▸ ha))
      · intro p hp
        rcases List.mem_append.mp hp with h1 | h1
        · exact hg.2 p h1
        · simp only [List.mem_singleton] at h1
          rw [h1]
          rfl

theorem GoodFiles_processChildren (cwd : String) :
    ∀ (tcs : List Elem) (st st1 : CallState),
    processChildren cwd none st tcs = .ok st1 → GoodFiles st.newFiles →
    GoodFiles st1.newFiles
  | [], st, st1, h, hg => by
    cases h
    exact hg
  | tc :: rest, st, st1, h, hg => by
    unfold processChildren at h
    cases hstep : processTestcase cwd none st tc with
    | error e =>
      rw [hstep] at h
      simp at h
    | ok st2 =>
      rw [hstep] at h
      exact GoodFiles_processChildren cwd rest st2 st1 h
        (GoodFiles_processTestcase cwd st st2 tc hstep hg)

theorem GoodFiles_processSuites (cwd : String) :
    ∀ (suites : List Elem) (st st1 : CallState),
    processSuites cwd none st suites = .ok st1 → GoodFiles st.newFiles →
    GoodFiles st1.newFiles
  | [], st, st1, h, hg => by
    cases h
    exact hg
  | s :: rest, st, st1, h, hg => by
    unfold processSuites at h
    cases hstep : processChildren cwd none st s.children with
    | error e =>
      rw [hstep] at h
      simp at h
    | ok st2 =>
      rw [hstep] at h
      exact GoodFiles_processSuites cwd rest st2 st1 h
        (GoodFiles_processChildren cwd s.children st st2 hstep hg)

/-- Claim C1 counterexample: two input files that each contain one test case
for file `a/b.cpp` yield two `<file path="a/b.cpp">` elements in the merged
output, not one — the `sq_files` dict is created afresh for every input
file, so grouping never spans input files. -/
theorem claim_C1_counterexample :
    mainModel "/" (runArgs [.parsed (tsuite [tcDup1]), .parsed (tsuite [tcDup2])] false none) [] =
      .exited 0 (some [⟨"a/b.cpp", [⟨"t1", "0", none, none⟩]⟩,
                        ⟨"a/b.cpp", [⟨"t2", "0", none, none⟩]⟩]) 0 ∧
    mainModel "/" (runArgs [.parsed (tsuite [tcDup1]), .parsed (tsuite [tcDup2])] false none) [] ≠
      .exited 0 (some [⟨"a/b.cpp", [⟨"t1", "0", none, none⟩, ⟨"t2", "0", none, none⟩]⟩]) 0 :=
  ⟨rfl, by decide⟩

/-- Claim C1 (amended): the one-group-per-path invariant holds per input
file, not per run: processing a single input file (with `base_dir` unset)
appends a block of new `<file>` elements whose paths are pairwise distinct,
but each input file contributes its own block, so a path mentioned by
several input files yields one `<file>` element per mentioning input. -/
theorem claim_C1_amended (cwd : String) (root : Elem) (tes : List SQFile) (w : Nat)
    (tes' : List SQFile) (w' : Nat)
    (h : junitToSonarqube cwd none root tes w = .ok (tes', w')) :
    ∃ new, tes' = tes ++ new ∧ (new.map SQFile.path).Nodup := by
  unfold junitToSonarqube at h
  cases hs : processSuites cwd none ⟨[], w⟩
      (if root.tag == "testsuite" then [root] else root.findall "testsuite") with
  | error e =>
    rw [hs] at h
    simp at h
  | ok st =>
    rw [hs] at h
    cases h
    refine ⟨st.newFiles.map (fun p => p.2), rfl, ?_⟩
    have hg : GoodFiles st.newFiles :=
      GoodFiles_processSuites cwd _ ⟨[], w⟩ st hs ⟨List.nodup_nil, by simp⟩
    have : (st.newFiles.map (fun p => p.2)).map SQFile.path = st.newFiles.map Prod.fst := by
      rw [List.map_map]
      exact List.map_congr_left (fun p hp => hg.2 p hp)
    rw [this]
    exact hg.1

/-- Claim C1 witness: one input file mentioning `a/b.cpp` twice produces a
single new `<file>` element, and the block of new elements has pairwise
distinct paths. -/
theorem claim_C1_witness :
    junitToSonarqube "/" none (tsuite [tcDup1, tcDup2]) [] 0 =
      .ok ([⟨"a/b.cpp", [⟨"t1", "0", none, none⟩, ⟨"t2", "0", none, none⟩]⟩], 0) ∧
    ∃ new, [(⟨"a/b.cpp", [⟨"t1", "0", none, none⟩, ⟨"t2", "0", none, none⟩]⟩ : SQFile)] =
      [] ++ new ∧ (new.map SQFile.path).Nodup :=
  ⟨rfl, claim_C1_amended "/" (tsuite [tcDup1, tcDup2]) [] 0 _ 0 rfl⟩

/-! ### Benign inputs and warning-count independence (claims C8, C9) -/

/-- Whether one input report parsed successfully. -/
def isParsed : InputFile → Bool
  | .malformed => false
  | .parsed _ => true

/-- A testsuite child whose processing cannot raise: either it is dropped
(no file key), or its `time` attribute parses and any `skipped` child has
body text.  (The failure aggregator can never raise - see claim C10.) -/
def tcBenign (tc : Elem) : Bool :=
  match fileKeyOf tc with
  | none => true
  | some _ =>
    (durationOf tc).isSome &&
      (match skippedOf tc with
       | .ok _ => true
       | .error _ => false)

/-- A parsed document none of whose testsuite children raises. -/
def rootBenign (root : Elem) : Bool :=
  (if root.tag == "testsuite" then [root] else root.findall "testsuite").all
    (fun s => s.children.all tcBenign)

/-- An input that cannot raise an uncaught exception: malformed inputs are
caught at the `append` boundary, parsed inputs must be benign. -/
def reportBenign : InputFile → Bool
  | .malformed => true
  | .parsed root => rootBenign root

theorem processTestcase_ok_of_benign (cwd : String) (b : Option String) (st : CallState)
    (tc : Elem) (hb : tcBenign tc = true) :
    ∃ st1, processTestcase cwd b st tc = .ok st1 := by
  unfold tcBenign at hb
  cases hk : fileKeyOf tc with
  | none =>
    refine ⟨⟨st.newFiles, st.warnings + 1⟩, ?_⟩
    unfold processTestcase
    rw [hk]
  | some k =>
    rw [hk] at hb
    simp only [Bool.and_eq_true] at hb
    obtain ⟨hd1, hs1⟩ := hb
    obtain ⟨d, hd⟩ := Option.isSome_iff_exists.mp hd1
    cases hs : skippedOf tc with
    | error e =>
      rw [hs] at hs1
      simp at hs1
    | ok sk =>
      obtain ⟨fl, hf⟩ := failureOf_ok tc
      exact ⟨_, processTestcase_eq cwd b st tc k d sk fl hk hd hs hf⟩

/-- The file-group evolution and warning increment of one test case do not
depend on the incoming warning count. -/
theorem processTestcase_indep (cwd : String) (b : Option String) (fs : List (String × SQFile))
    (w : Nat) (tc : Elem) (st1 : CallState)
    (h : processTestcase cwd b ⟨fs, w⟩ tc = .ok st1) :
    ∃ dw, st1.warnings = w + dw ∧
      ∀ w2, processTestcase cwd b ⟨fs, w2⟩ tc = .ok ⟨st1.newFiles, w2 + dw⟩ := by
  rcases processTestcase_ok_shape cwd b ⟨fs, w⟩ st1 tc h with
    ⟨hk, hst⟩ | ⟨k, d, sk, fl, hk, hd, hs, hf, hst⟩
  · refine ⟨1, by rw [hst], fun w2 => ?_⟩
    unfold processTestcase
    rw [hk, hst]
  · refine ⟨0, by rw [hst]; simp, fun w2 => ?_⟩
    rw [processTestcase_eq cwd b ⟨fs, w2⟩ tc k d sk fl hk hd hs hf, hst]
    simp

/-- A raised exception does not depend on the incoming warning count. -/
theorem processTestcase_error_indep (cwd : String) (b : Option String)
    (fs : List (String × SQFile)) (w : Nat) (tc : Elem) (e : PyErr)
    (h : processTestcase cwd b ⟨fs, w⟩ tc = .error e) :
    ∀ w2, processTestcase cwd b ⟨fs, w2⟩ tc = .error e := by
  intro w2
  cases hk : fileKeyOf tc with
  | none =>
    unfold processTestcase at h
    rw [hk] at h
    simp at h
  | some k =>
    cases hd : durationOf tc with
    | none =>
      unfold processTestcase at h ⊢
      rw [hk, hd] at h ⊢
      exact h
    | some d =>
      cases hs : skippedOf tc with
      | error e2 =>
        unfold processTestcase at h ⊢
        rw [hk, hd, hs] at h ⊢
        exact h
      | ok sk =>
        obtain ⟨fl, hf⟩ := failureOf_ok tc
        rw [processTestcase_eq cwd b ⟨fs, w⟩ tc k d sk fl hk hd hs hf] at h
        simp at h

theorem processChildren_indep (cwd : String) (b : Option String) :
    ∀ (tcs : List Elem) (fs : List (String × SQFile)) (w : Nat) (st1 : CallState),
    processChildren cwd b ⟨fs, w⟩ tcs = .ok st1 →
    ∃ dw, st1.warnings = w + dw ∧
      ∀ w2, processChildren cwd b ⟨fs, w2⟩ tcs = .ok ⟨st1.newFiles, w2 + dw⟩
  | [], fs, w, st1, h => by
    cases h
    exact ⟨0, rfl, fun w2 => rfl⟩
  | tc :: rest, fs, w, st1, h => by
    unfold processChildren at h
    cases ht : processTestcase cwd b ⟨fs, w⟩ tc with
    | error e =>
      rw [ht] at h
      simp at h
    | ok st2 =>
      rw [ht] at h
      obtain ⟨fs2, wmid⟩ := st2
      obtain ⟨d1, hw1, hall1⟩ := processTestcase_indep cwd b fs w tc ⟨fs2, wmid⟩ ht
      simp only at hw1
      subst hw1
      obtain ⟨d2, hw2, hall2⟩ := processChildren_indep cwd b rest fs2 (w + d1) st1 h
      refine ⟨d1 + d2, by rw [hw2]; omega, fun w2 => ?_⟩
      unfold processChildren
      rw [hall1 w2]
      show processChildren cwd b ⟨fs2, w2 + d1⟩ rest =
        .ok ⟨st1.newFiles, w2 + (d1 + d2)⟩
      rw [hall2 (w2 + d1), Nat.add_assoc]

theorem processChildren_error_indep (cwd : String) (b : Option String) :
    ∀ (tcs : List Elem) (fs : List (String × SQFile)) (w : Nat) (e : PyErr),
    processChildren cwd b ⟨fs, w⟩ tcs = .error e →
    ∀ w2, processChildren cwd b ⟨fs, w2⟩ tcs = .error e
  | [], fs, w, e, h => by cases h
  | tc :: rest, fs, w, e, h => by
    intro w2
    unfold processChildren at h ⊢
    cases ht : processTestcase cwd b ⟨fs, w⟩ tc with
    | error e2 =>
      rw [ht] at h
      rw [processTestcase_error_indep cwd b fs w tc e2 ht w2]
      exact h
    | ok st2 =>
      rw [ht] at h
      obtain ⟨fs2, wmid⟩ := st2
      obtain ⟨d1, hw1, hall1⟩ := processTestcase_indep cwd b fs w tc ⟨fs2, wmid⟩ ht
      simp only at hw1
      subst hw1
      rw [hall1 w2]
      have h2 : processChildren cwd b ⟨fs2, w + d1⟩ rest = .error e := h
      show processChildren cwd b ⟨fs2, w2 + d1⟩ rest = .error e
      exact processChildren_error_indep cwd b rest fs2 (w + d1) e h2 (w2 + d1)

theorem processSuites_indep (cwd : String) (b : Option String) :
    ∀ (suites : List Elem) (fs : List (String × SQFile)) (w : Nat) (st1 : CallState),
    processSuites cwd b ⟨fs, w⟩ suites = .ok st1 →
    ∃ dw, st1.warnings = w + dw ∧
      ∀ w2, processSuites cwd b ⟨fs, w2⟩ suites = .ok ⟨st1.newFiles, w2 + dw⟩
  | [], fs, w, st1, h => by
    cases h
    exact ⟨0, rfl, fun w2 => rfl⟩
  | s :: rest, fs, w, st1, h => by
    unfold processSuites at h
    cases ht : processChildren cwd b ⟨fs, w⟩ s.children with
    | error e =>
      rw [ht] at h
      simp at h
    | ok st2 =>
      rw [ht] at h
      obtain ⟨fs2, wmid⟩ := st2
      obtain ⟨d1, hw1, hall1⟩ := processChildren_indep cwd b s.children fs w ⟨fs2, wmid⟩ ht
      simp only at hw1
      subst hw1
      obtain ⟨d2, hw2, hall2⟩ := processSuites_indep cwd b rest fs2 (w + d1) st1 h
      refine ⟨d1 + d2, by rw [hw2]; omega, fun w2 => ?_⟩
      unfold processSuites
      rw [hall1 w2]
      show processSuites cwd b ⟨fs2, w2 + d1⟩ rest =
        .ok ⟨st1.newFiles, w2 + (d1 + d2)⟩
      rw [hall2 (w2 + d1), Nat.add_assoc]

theorem processSuites_error_indep (cwd : String) (b : Option String) :
    ∀ (suites : List Elem) (fs : List (String × SQFile)) (w : Nat) (e : PyErr),
    processSuites cwd b ⟨fs, w⟩ suites = .error e →
    ∀ w2, processSuites cwd b ⟨fs, w2⟩ suites = .error e
  | [], fs, w, e, h => by cases h
  | s :: rest, fs, w, e, h => by
    intro w2
    unfold processSuites at h ⊢
    cases ht : processChildren cwd b ⟨fs, w⟩ s.children with
    | error e2 =>
      rw [ht] at h
      rw [processChildren_error_indep cwd b s.children fs w e2 ht w2]
      exact h
    | ok st2 =>
      rw [ht] at h
      obtain ⟨fs2, wmid⟩ := st2
      obtain ⟨d1, hw1, hall1⟩ := processChildren_indep cwd b s.children fs w ⟨fs2, wmid⟩ ht
      simp only at hw1
      subst hw1
      rw [hall1 w2]
      have h2 : processSuites cwd b ⟨fs2, w + d1⟩ rest = .error e := h
      show processSuites cwd b ⟨fs2, w2 + d1⟩ rest = .error e
      exact processSuites_error_indep cwd b rest fs2 (w + d1) e h2 (w2 + d1)

/-- A successful translation of one input file appends a block of new
`<file>` elements and bumps the warning count by amounts that depend only on
the document, not on the accumulated output or warning count. -/
theorem junit_indep (cwd : String) (b : Option String) (root : Elem) (tes : List SQFile)
    (w : Nat) (tes' : List SQFile) (w' : Nat)
    (h : junitToSonarqube cwd b root tes w = .ok (tes', w')) :
    ∃ new dw, tes' = tes ++ new ∧ w' = w + dw ∧
      ∀ tes2 w2, junitToSonarqube cwd b root tes2 w2 = .ok (tes2 ++ new, w2 + dw) := by
  unfold junitToSonarqube at h
  cases hs : processSuites cwd b ⟨[], w⟩
      (if root.tag == "testsuite" then [root] else root.findall "testsuite") with
  | error e =>
    rw [hs] at h
    simp at h
  | ok st =>
    rw [hs] at h
    cases h
    obtain ⟨dw, hw, hall⟩ := processSuites_indep cwd b _ [] w st hs
    refine ⟨st.newFiles.map (fun p => p.2), dw, rfl, hw, fun tes2 w2 => ?_⟩
    unfold junitToSonarqube
    rw [hall w2]

theorem junit_error_indep (cwd : String) (b : Option String) (root : Elem) (tes : List SQFile)
    (w : Nat) (e : PyErr) (h : junitToSonarqube cwd b root tes w = .error e) :
    ∀ tes2 w2, junitToSonarqube cwd b root tes2 w2 = .error e := by
  intro tes2 w2
  unfold junitToSonarqube at h ⊢
  cases hs : processSuites cwd b ⟨[], w⟩
      (if root.tag == "testsuite" then [root] else root.findall "testsuite") with
  | error e2 =>
    rw [hs] at h
    rw [processSuites_error_indep cwd b _ [] w e2 hs w2]
    exact h
  | ok st =>
    rw [hs] at h
    simp at h

theorem processChildren_ok_of_benign (cwd : String) (b : Option String) :
    ∀ (tcs : List Elem) (st : CallState), (∀ tc ∈ tcs, tcBenign tc = true) →
    ∃ st1, processChildren cwd b st tcs = .ok st1
  | [], st, _ => ⟨st, rfl⟩
  | tc :: rest, st, hb => by
    obtain ⟨st2, h2⟩ := processTestcase_ok_of_benign cwd b st tc
      (hb tc (List.mem_cons_self _ _))
    obtain ⟨st1, h1⟩ := processChildren_ok_of_benign cwd b rest st2
      (fun x hx => hb x (List.mem_cons_of_mem _ hx))
    refine ⟨st1, ?_⟩
    unfold processChildren
    rw [h2]
    exact h1

theorem processSuites_ok_of_benign (cwd : String) (b : Option String) :
    ∀ (suites : List Elem) (st : CallState),
    (∀ s ∈ suites, ∀ tc ∈ s.children, tcBenign tc = true) →
    ∃ st1, processSuites cwd b st suites = .ok st1
  | [], st, _ => ⟨st, rfl⟩
  | s :: rest, st, hb => by
    obtain ⟨st2, h2⟩ := processChildren_ok_of_benign cwd b s.children st
      (hb s (List.mem_cons_self _ _))
    obtain ⟨st1, h1⟩ := processSuites_ok_of_benign cwd b rest st2
      (fun x hx => hb x (List.mem_cons_of_mem _ hx))
    refine ⟨st1, ?_⟩
    unfold processSuites
    rw [h2]
    exact h1

theorem junit_ok_of_benign (cwd : String) (b : Option String) (root : Elem)
    (tes : List SQFile) (w : Nat) (hb : rootBenign root = true) :
    ∃ tes' w', junitToSonarqube cwd b root tes w = .ok (tes', w') := by
  unfold rootBenign at hb
  rw [List.all_eq_true] at hb
  obtain ⟨st1, h1⟩ := processSuites_ok_of_benign cwd b _ ⟨[], w⟩
    (fun s hs => List.all_eq_true.mp (hb s hs))
  refine ⟨tes ++ st1.newFiles.map (fun p => p.2), st1.warnings, ?_⟩
  unfold junitToSonarqube
  rw [h1]

/-! ### Evaluation lemmas for the report loop -/

theorem processReports_cons_malformed_nostop (cwd : String) (b : Option String)
    (rest : List InputFile) (tes : List SQFile) (w : Nat) :
    processReports cwd b false (.malformed :: rest) tes w =
      processReports cwd b false rest tes (w + 1) := rfl

theorem processReports_cons_malformed_stop (cwd : String) (b : Option String)
    (rest : List InputFile) (tes : List SQFile) (w : Nat) :
    processReports cwd b true (.malformed :: rest) tes w = .stopped (w + 1) := rfl

theorem processReports_cons_parsed (cwd : String) (b : Option String) (stop : Bool)
    (root : Elem) (rest : List InputFile) (tes : List SQFile) (w : Nat)
    (tes1 : List SQFile) (w1 : Nat)
    (h : junitToSonarqube cwd b root tes w = .ok (tes1, w1)) :
    processReports cwd b stop (.parsed root :: rest) tes w =
      processReports cwd b stop rest tes1 w1 := by
  have ha : append cwd b (.parsed root) tes w = .ok (tes1, w1, 0) := by
    show (match junitToSonarqube cwd b root tes w with
          | Except.error e => Except.error e
          | Except.ok (tes', w') => Except.ok (tes', w', 0)) = Except.ok (tes1, w1, 0)
    rw [h]
  conv_lhs => unfold processReports
  rw [ha]
  rfl

theorem processReports_cons_parsed_error (cwd : String) (b : Option String) (stop : Bool)
    (root : Elem) (rest : List InputFile) (tes : List SQFile) (w : Nat) (e : PyErr)
    (h : junitToSonarqube cwd b root tes w = .error e) :
    processReports cwd b stop (.parsed root :: rest) tes w = .raised e := by
  have ha : append cwd b (.parsed root) tes w = .error e := by
    show (match junitToSonarqube cwd b root tes w with
          | Except.error e => Except.error e
          | Except.ok (tes', w') => Except.ok (tes', w', 0)) = Except.error e
    rw [h]
  conv_lhs => unfold processReports
  rw [ha]

/-- Without stop-on-failure, a run over benign inputs finishes; malformed
inputs are skipped with one warning each, and removing them from the input
list leaves the produced output block unchanged. -/
theorem processReports_filter (cwd : String) (b : Option String) :
    ∀ (rs : List InputFile), (∀ r ∈ rs, reportBenign r = true) →
    ∀ (tes : List SQFile) (w w2 : Nat), ∃ tes' dw dw2,
      processReports cwd b false rs tes w = .finished tes' (w + dw) ∧
      processReports cwd b false (rs.filter isParsed) tes w2 = .finished tes' (w2 + dw2) ∧
      rs.countP (fun r => !isParsed r) ≤ dw
  | [] => by
    intro _ tes w w2
    exact ⟨tes, 0, 0, rfl, rfl, by simp⟩
  | .malformed :: rest => by
    intro hb tes w w2
    obtain ⟨tes', dw', dw2', h1, h2, hc⟩ := processReports_filter cwd b rest
      (fun x hx => hb x (List.mem_cons_of_mem _ hx)) tes (w + 1) w2
    refine ⟨tes', 1 + dw', dw2', ?_, ?_, ?_⟩
    · rw [processReports_cons_malformed_nostop,
        show w + (1 + dw') = w + 1 + dw' from by omega]
      exact h1
    · exact h2
    · have hcnt : (InputFile.malformed :: rest).countP (fun r => !isParsed r) =
          rest.countP (fun r => !isParsed r) + 1 := by
        rw [List.countP_cons]
        rfl
      rw [hcnt]
      omega
  | .parsed root :: rest => by
    intro hb tes w w2
    have hbr : rootBenign root = true := hb _ (List.mem_cons_self _ _)
    obtain ⟨tesj, wj, hj⟩ := junit_ok_of_benign cwd b root tes w hbr
    obtain ⟨new, dwj, _, _, hall⟩ := junit_indep cwd b root tes w tesj wj hj
    obtain ⟨tes', dw', dw2', h1, h2, hc⟩ := processReports_filter cwd b rest
      (fun x hx => hb x (List.mem_cons_of_mem _ hx)) (tes ++ new) (w + dwj) (w2 + dwj)
    refine ⟨tes', dwj + dw', dwj + dw2', ?_, ?_, ?_⟩
    · rw [processReports_cons_parsed cwd b false root rest tes w _ _ (hall tes w),
        show w + (dwj + dw') = w + dwj + dw' from by omega]
      exact h1
    · show processReports cwd b false (.parsed root :: rest.filter isParsed) tes w2 = _
      rw [processReports_cons_parsed cwd b false root _ tes w2 _ _ (hall tes w2),
        show w2 + (dwj + dw2') = w2 + dwj + dw2' from by omega]
      exact h2
    · have hcnt : (InputFile.parsed root :: rest).countP (fun r => !isParsed r) =
          rest.countP (fun r => !isParsed r) := by
        rw [List.countP_cons]
        rfl
      rw [hcnt]
      omega

/-- With stop-on-failure, a run over benign inputs containing at least one
malformed input stops. -/
theorem processReports_stop (cwd : String) (b : Option String) :
    ∀ (rs : List InputFile), (∀ r ∈ rs, reportBenign r = true) →
    (∃ r ∈ rs, isParsed r = false) →
    ∀ (tes : List SQFile) (w : Nat), ∃ w', processReports cwd b true rs tes w = .stopped w'
  | [] => by
    intro _ hm
    simp at hm
  | .malformed :: rest => by
    intro _ _ tes w
    exact ⟨w + 1, processReports_cons_malformed_stop cwd b rest tes w⟩
  | .parsed root :: rest => by
    intro hb hm tes w
    have hbr : rootBenign root = true := hb _ (List.mem_cons_self _ _)
    obtain ⟨tesj, wj, hj⟩ := junit_ok_of_benign cwd b root tes w hbr
    have hm' : ∃ r ∈ rest, isParsed r = false := by
      obtain ⟨x, hx, hpx⟩ := hm
      rcases List.mem_cons.mp hx with h1 | h1
      · rw [h1] at hpx
        simp [isParsed] at hpx
      · exact ⟨x, h1, hpx⟩
    obtain ⟨w', h'⟩ := processReports_stop cwd b rest
      (fun x hx => hb x (List.mem_cons_of_mem _ hx)) hm' tesj wj
    refine ⟨w', ?_⟩
    rw [processReports_cons_parsed cwd b true root rest tes w tesj wj hj]
    exact h'

/-- A stop-on-failure abort always happens after at least one warning was
logged (the parse failure itself). -/
theorem processReports_stopped_pos (cwd : String) (b : Option String) (stop : Bool) :
    ∀ (rs : List InputFile) (tes : List SQFile) (w w' : Nat),
    processReports cwd b stop rs tes w = .stopped w' → 0 < w'
  | [], tes, w, w', h => by
    exact LoopOutcome.noConfusion h
  | .malformed :: rest, tes, w, w', h => by
    cases stop with
    | true =>
      rw [processReports_cons_malformed_stop] at h
      cases h
      omega
    | false =>
      rw [processReports_cons_malformed_nostop] at h
      exact processReports_stopped_pos cwd b false rest tes (w + 1) w' h
  | .parsed root :: rest, tes, w, w', h => by
    cases hj : junitToSonarqube cwd b root tes w with
    | error e =>
      rw [processReports_cons_parsed_error cwd b stop root rest tes w e hj] at h
      exact LoopOutcome.noConfusion h
    | ok p =>
      obtain ⟨tes1, w1⟩ := p
      rw [processReports_cons_parsed cwd b stop root rest tes w tes1 w1 hj] at h
      exact processReports_stopped_pos cwd b stop rest tes1 w1 w' h

/-- Claim C8: over any benign input set containing a malformed file, a run
without stop-on-failure skips each malformed input (logging at least one
warning apiece), merges the well-formed inputs into one output — the same
output the run over just the well-formed inputs writes — and exits 0; with
stop-on-failure the run exits 1 without writing an output file. -/
theorem claim_C8 (cwd : String) (b : Option String) (inputs : List InputFile)
    (hb : inputs.all reportBenign = true)
    (hm : inputs.any (fun r => !isParsed r) = true) :
    (∃ tes w w2, mainModel cwd ⟨some "*.xml", some inputs, false, false, b⟩ [] =
        .exited 0 (some tes) w ∧
      inputs.countP (fun r => !isParsed r) ≤ w ∧ 0 < w ∧
      mainModel cwd ⟨some "*.xml", some (inputs.filter isParsed), false, false, b⟩ [] =
        .exited 0 (some tes) w2) ∧
    (∃ w3, mainModel cwd ⟨some "*.xml", some inputs, true, false, b⟩ [] =
      .exited 1 none w3) := by
  have hb' : ∀ r ∈ inputs, reportBenign r = true := List.all_eq_true.mp hb
  constructor
  · obtain ⟨tes', dw, dw2, h1, h2, hc⟩ := processReports_filter cwd b inputs hb' [] 0 0
    have hcount : 0 < inputs.countP (fun r => !isParsed r) := by
      rw [List.countP_pos_iff]
      obtain ⟨x, hx, hpx⟩ := List.any_eq_true.mp hm
      exact ⟨x, hx, hpx⟩
    refine ⟨tes', 0 + dw, 0 + dw2, ?_, by omega, by omega, ?_⟩
    · have e1 : mainModel cwd ⟨some "*.xml", some inputs, false, false, b⟩ [] =
          (match processReports cwd b false inputs [] 0 with
           | .raised e => .uncaught e
           | .stopped w => .exited 1 none w
           | .finished tes2 wx => .exited 0 (some tes2) wx) := rfl
      rw [e1, h1]
    · have e2 : mainModel cwd ⟨some "*.xml", some (inputs.filter isParsed), false, false, b⟩ [] =
          (match processReports cwd b false (inputs.filter isParsed) [] 0 with
           | .raised e => .uncaught e
           | .stopped w => .exited 1 none w
           | .finished tes2 wx => .exited 0 (some tes2) wx) := rfl
      rw [e2, h2]
  · have hm' : ∃ r ∈ inputs, isParsed r = false := by
      obtain ⟨x, hx, hpx⟩ := List.any_eq_true.mp hm
      exact ⟨x, hx, by revert hpx; cases isParsed x <;> simp⟩
    obtain ⟨w3, h3⟩ := processReports_stop cwd b inputs hb' hm' [] 0
    refine ⟨w3, ?_⟩
    have e3 : mainModel cwd ⟨some "*.xml", some inputs, true, false, b⟩ [] =
        (match processReports cwd b true inputs [] 0 with
         | .raised e => .uncaught e
         | .stopped w => .exited 1 none w
         | .finished tes2 wx => .exited 0 (some tes2) wx) := rfl
    rw [e3, h3]

/-- Claim C8 witness: three inputs, the middle one malformed, without and
with stop-on-failure. -/
theorem claim_C8_witness :
    ([InputFile.parsed (tsuite [tcDup1]), .malformed, .parsed (tsuite [tcDup2])].all
      reportBenign = true) ∧
    ([InputFile.parsed (tsuite [tcDup1]), .malformed, .parsed (tsuite [tcDup2])].any
      (fun r => !isParsed r) = true) ∧
    ((∃ tes w w2, mainModel "/" ⟨some "*.xml",
        some [InputFile.parsed (tsuite [tcDup1]), .malformed, .parsed (tsuite [tcDup2])],
        false, false, none⟩ [] = .exited 0 (some tes) w ∧
      ([InputFile.parsed (tsuite [tcDup1]), .malformed, .parsed (tsuite [tcDup2])].countP
        (fun r => !isParsed r)) ≤ w ∧ 0 < w ∧
      mainModel "/" ⟨some "*.xml",
        some ([InputFile.parsed (tsuite [tcDup1]), .malformed,
          .parsed (tsuite [tcDup2])].filter isParsed),
        false, false, none⟩ [] = .exited 0 (some tes) w2) ∧
    (∃ w3, mainModel "/" ⟨some "*.xml",
        some [InputFile.parsed (tsuite [tcDup1]), .malformed, .parsed (tsuite [tcDup2])],
        true, false, none⟩ [] = .exited 1 none w3)) :=
  ⟨rfl, rfl,
   claim_C8 "/" none
     [InputFile.parsed (tsuite [tcDup1]), .malformed, .parsed (tsuite [tcDup2])] rfl rfl⟩

/-- Claim C9 counterexample: with no `-i` flags (`args.input is None`) the
run exits 1 without writing output even though the glob pattern matched a
well-formed input file — the missing-inputs check never consults the glob
matches, contradicting the claim's "if either source yields at least one
input" condition. -/
theorem claim_C9_counterexample :
    mainModel "/" ⟨some "*.xml", none, false, false, none⟩
      [.parsed (tsuite [tcDup1])] = .exited 1 none 0 ∧
    mainModel "/" ⟨some "*.xml", none, false, false, none⟩
      [.parsed (tsuite [tcDup1])] ≠
      .exited 0 (some [⟨"a/b.cpp", [⟨"t1", "0", none, none⟩]⟩]) 0 :=
  ⟨rfl, by decide⟩

/-- Claim C9 (amended): the run takes the missing-inputs exit — status 1,
no output written, no warnings logged — exactly when the explicit input
list is absent (`args.input is None`), regardless of what the glob pattern
matched; every other exit-1 path (stop-on-failure) has logged at least one
warning. -/
theorem claim_C9_amended (cwd : String) (args : Args) (globReports : List InputFile) :
    mainModel cwd args globReports = .exited 1 none 0 ↔ args.input = none := by
  constructor
  · intro h
    unfold mainModel at h
    split at h
    · assumption
    · exfalso
      split at h
      · exact MainResult.noConfusion h
      · rename_i heq
        have hpos := processReports_stopped_pos cwd args.base_dir args.stop_on_failure
          _ _ _ _ heq
        have hw := (MainResult.exited.inj h).2.2
        omega
      · split at h
        · exact MainResult.noConfusion h
        · rename_i heq2
          have hpos := processReports_stopped_pos cwd args.base_dir args.stop_on_failure
            _ _ _ _ heq2
          have hw := (MainResult.exited.inj h).2.2
          omega
        · split at h <;> exact absurd (MainResult.exited.inj h).1 (by omega)
  · intro h
    unfold mainModel
    rw [h]

/-- Claim C9 witness: a run with no explicit inputs takes the
missing-inputs exit even with base dir, stop-on-failure and dry-run all
set. -/
theorem claim_C9_witness :
    mainModel "/" ⟨some "*.xml", none, true, true, some "/b"⟩ [] = .exited 1 none 0 :=
  (claim_C9_amended "/" ⟨some "*.xml", none, true, true, some "/b"⟩ []).mpr rfl

end TestReportUtil
